import Mathlib

/-!
Verification of the investigation orchestration core of the catcher-agent
repository against its natural-language specification.

The Python sources are shallowly embedded:
* `ein_agent_worker/models/investigation.py` — the Finding Store (Blackboard):
  `SharedFinding`, `InvestigationGroup`, `SharedContext` and its methods.
* `ein_agent_worker/workflows/investigation_utils.py` — the Correlation
  Engine: `calculate_convergence`, `check_exit_conditions`.
* `ein_agent_worker/workflows/agents/router_agent.py` — the Router:
  `KEYWORD_MAPPINGS`, `suggest_specialists_tool`.
* `ein_agent_worker/workflows/human_in_the_loop.py` — the Conversation
  State Machine: the signal handlers, the wait conditions of `ask_user` /
  `select_specialist` / the main loop, `_is_final_report`, and the
  conversation loop of `run`.

Python floats are modelled as rationals (`ℚ`); every arithmetic step taken
on the paths verified here is exact in double precision, so the rational
model agrees with the float computation on those paths.  Python exceptions
are modelled by returning the unchanged state together with a `none` /
error marker.  Python `dict`s are modelled as association lists with
first-insertion key order and value override, plus a key-set based
equality test matching `dict.__eq__`.
-/

/-! ### Basic string helpers (Python `in`, `str.split()`) -/

/-- `startsWithL hay nd` is true when `nd` is an initial segment of `hay`
(character lists). -/
def startsWithL : List Char → List Char → Bool
  | _, [] => true
  | [], _ :: _ => false
  | a :: hay, b :: nd => a = b && startsWithL hay nd

/-- `containsL hay nd` is true when `nd` occurs contiguously inside `hay`;
this is Python's `nd in hay` on strings. -/
def containsL : List Char → List Char → Bool
  | [], nd => nd.isEmpty
  | a :: hay, nd => startsWithL (a :: hay) nd || containsL hay nd

/-- Python's substring test `needle in hay`. -/
def strContains (hay needle : String) : Bool :=
  containsL hay.data needle.data

/-- Python's `str.lower()`, on the ASCII case mapping (which Python and
Lean share on the ASCII range; every router keyword and report indicator
is ASCII). -/
def pyLower (s : String) : String :=
  ⟨s.data.map Char.toLower⟩

/-- Python's `str.split()` with no argument: split on runs of whitespace,
dropping empty pieces. -/
def pySplit (s : String) : List String :=
  (s.split Char.isWhitespace).filter (fun w => w ≠ "")

/-! ### Finding Store (Blackboard) — `models/investigation.py`

`confidence` is a rational in place of a Python float; pydantic's
`ge=0.0, le=1.0` field constraint on `SharedFinding.confidence` raises a
validation error inside `SharedContext.add_finding` before the append,
which is modelled by returning the unchanged context with `none`.
`datetime` timestamps are abstracted to `Option Nat` (they are set by the
durable substrate's clock and never inspected by the modelled code), and
`metadata` values to strings. -/

/-- `SharedFinding` of `models/investigation.py`: one blackboard entry. -/
structure SharedFinding where
  key : String
  value : String
  confidence : ℚ
  agent_name : String
  timestamp : Option Nat := none
  metadata : List (String × String) := []
  deriving DecidableEq, Repr

/-- `InvestigationGroup` of `models/investigation.py`: a grouping of
findings referenced by 0-based position. -/
structure InvestigationGroup where
  name : String
  finding_indices : List Nat
  analysis : String
  agent_name : String
  timestamp : Option Nat := none
  deriving DecidableEq, Repr

/-- `SharedContext` of `models/investigation.py`: the Blackboard. -/
structure SharedContext where
  findings : List SharedFinding := []
  groups : List InvestigationGroup := []
  deriving DecidableEq, Repr

namespace SharedContext

/-- `SharedContext.add_finding`: constructs a `SharedFinding` (pydantic
validates `0.0 ≤ confidence ≤ 1.0` during construction, raising before any
mutation) and appends it.  The result is the post-call context paired with
the created finding; a validation failure leaves the context unchanged and
yields `none`. -/
def add_finding (ctx : SharedContext) (key value : String) (confidence : ℚ)
    (agent_name : String) (metadata : List (String × String) := [])
    (timestamp : Option Nat := none) : SharedContext × Option SharedFinding :=
  if 0 ≤ confidence ∧ confidence ≤ 1 then
    let finding : SharedFinding :=
      { key := key, value := value, confidence := confidence,
        agent_name := agent_name, metadata := metadata, timestamp := timestamp }
    ({ ctx with findings := ctx.findings ++ [finding] }, some finding)
  else
    (ctx, none)

/-- `SharedContext.add_group`: constructs an `InvestigationGroup` and
appends it.  The source performs no validation of `finding_indices`. -/
def add_group (ctx : SharedContext) (name : String) (finding_indices : List Nat)
    (analysis : String) (agent_name : String) (timestamp : Option Nat := none) :
    SharedContext × InvestigationGroup :=
  let group : InvestigationGroup :=
    { name := name, finding_indices := finding_indices, analysis := analysis,
      agent_name := agent_name, timestamp := timestamp }
  ({ ctx with groups := ctx.groups ++ [group] }, group)

/-- `SharedContext.get_high_confidence_root_causes`: findings with
confidence at/above `threshold`, sorted by confidence descending.  Python's
`sorted(high_conf, key=lambda x: x.confidence, reverse=True)` is a stable
descending sort, which is exactly insertion sort with the reflexive
"confidence at least as high" relation. -/
def get_high_confidence_root_causes (ctx : SharedContext) (threshold : ℚ := 8/10) :
    List SharedFinding :=
  let high_conf := ctx.findings.filter (fun f => threshold ≤ f.confidence)
  high_conf.insertionSort (fun x y => y.confidence ≤ x.confidence)

/-- Python's `f"{c:.2f}"` for the confidence values rendered by
`format_summary`; recorded confidences lie in `[0, 1]`, where rendering two
decimals of the rational value matches CPython's float formatting on the
values the code produces. -/
def format2f (c : ℚ) : String :=
  let n : Int := round (c * 100)
  let ip := n / 100
  let fp := (n % 100).natAbs
  toString ip ++ "." ++ (if fp < 10 then "0" else "") ++ toString fp

/-- One numbered line of `SharedContext.format_summary` (1-based index). -/
def summaryLine (i : Nat) (f : SharedFinding) : String :=
  toString i ++ ". [" ++ f.agent_name ++ "] " ++ f.key ++ ": " ++ f.value
    ++ " (confidence: " ++ format2f f.confidence ++ ")"

/-- The numbered finding lines of `format_summary`, starting at index `i`. -/
def summaryLinesFrom (i : Nat) : List SharedFinding → List String
  | [] => []
  | f :: fs => summaryLine i f :: summaryLinesFrom (i + 1) fs

/-- The lines of `SharedContext.format_summary` before the final
`"\n".join`. -/
def summaryLines (ctx : SharedContext) : List String :=
  if ctx.findings = [] then ["No findings recorded yet."]
  else "=== Shared Context Findings ===" :: summaryLinesFrom 1 ctx.findings

/-- `SharedContext.format_summary`: deterministic rendering of all findings
in recording order. -/
def format_summary (ctx : SharedContext) : String :=
  String.intercalate "\n" (summaryLines ctx)

end SharedContext

/-! ### Blackboard call sequences (for the append-only invariant) -/

/-- One blackboard mutation call: `add_finding` (`record`) or `add_group`
(`group`). -/
inductive BlackboardOp
  | record (key value : String) (confidence : ℚ) (agent_name : String)
  | group (name : String) (finding_indices : List Nat) (analysis agent_name : String)
  deriving DecidableEq, Repr

/-- Apply one call to the blackboard; a failed `record` (out-of-range
confidence) raises in Python and leaves the store unchanged. -/
def applyOp (ctx : SharedContext) : BlackboardOp → SharedContext
  | .record k v c a => (ctx.add_finding k v c a).1
  | .group n idxs an a => (ctx.add_group n idxs an a).1

/-- Apply a sequence of blackboard calls in order. -/
def applyOps (ctx : SharedContext) (ops : List BlackboardOp) : SharedContext :=
  ops.foldl applyOp ctx

/-- A `record` call that passes the confidence validation (the successful
case of `add_finding`). -/
def BlackboardOp.recordOk : BlackboardOp → Prop
  | .record _ _ c _ => 0 ≤ c ∧ c ≤ 1
  | .group _ _ _ _ => False

instance : DecidablePred BlackboardOp.recordOk := by
  intro op
  cases op with
  | record k v c a => exact inferInstanceAs (Decidable (0 ≤ c ∧ c ≤ 1))
  | group n i an a => exact inferInstanceAs (Decidable False)

/-! ### Python dict model (association lists, insertion order, override) -/

/-- Python dict assignment `m[k] = v`: an existing key keeps its position
and gets the new value; a new key is appended. -/
def pyDictInsert {α : Type} (m : List (String × α)) (k : String) (v : α) :
    List (String × α) :=
  if m.any (fun p => p.1 = k) then
    m.map (fun p => if p.1 = k then (p.1, v) else p)
  else
    m ++ [(k, v)]

/-- Python dict comprehension `{key(b): val(b) for b in l}`. -/
def pyDictOfList {α β : Type} (key : β → String) (val : β → α) (l : List β) :
    List (String × α) :=
  l.foldl (fun m b => pyDictInsert m (key b) (val b)) []

/-- Lookup in the dict model (`m[k]` / `m.get(k)`). -/
def pyDictGet {α : Type} : List (String × α) → String → Option α
  | [], _ => none
  | p :: m, k => if p.1 = k then some p.2 else pyDictGet m k

/-- Python `dict.__eq__`: same key set, same value at every key
(insertion order is irrelevant). -/
def pyDictEq {α : Type} [DecidableEq α] (m₁ m₂ : List (String × α)) : Bool :=
  m₁.all (fun p => pyDictGet m₂ p.1 = some p.2) &&
    m₂.all (fun p => pyDictGet m₁ p.1 = some p.2)

/-! ### Correlation Engine — `workflows/investigation_utils.py`

The class declarations of `AlertFindings` and `MultiRoundConfig` are
imported by `investigation_utils.py` from `models/investigation.py` but are
absent from the sources at hand; the structures below are modelled from
the spec (§3 `AlertFindings`, §4.5 thresholds) restricted to the fields the
functions verified here actually read. -/

/-- Modelled from the spec: §3 `AlertFindings` — per-alert, per-round
findings; only the fields read by `calculate_convergence` and
`check_exit_conditions` (`alert_id`, `root_cause_assessment`,
`affected_layers`, `confidence`) are carried. -/
structure AlertFindings where
  alert_id : String
  root_cause_assessment : String
  affected_layers : List String
  confidence : ℚ
  deriving DecidableEq, Repr

/-- Modelled from the spec: §4.5 `MultiRoundConfig` — the exit-policy
thresholds (`max_rounds`, `confidence_threshold`, `convergence_threshold`);
the class declaration is absent from the sources. -/
structure MultiRoundConfig where
  max_rounds : Nat
  confidence_threshold : ℚ
  convergence_threshold : ℚ
  deriving DecidableEq, Repr

/-- The per-alert convergence score of `calculate_convergence`: weighted
root-cause / affected-layer / confidence similarity (weights 0.5/0.3/0.2). -/
def alertConvergence (prev curr : AlertFindings) : ℚ :=
  let rc_prev := pyLower prev.root_cause_assessment
  let rc_curr := pyLower curr.root_cause_assessment
  let rc_score : ℚ :=
    if rc_prev = rc_curr then 1
    else if ((pySplit rc_prev).take 5).any (fun word => strContains rc_curr word) then 0.5
    else 0
  let prev_layers := prev.affected_layers.toFinset
  let curr_layers := curr.affected_layers.toFinset
  let layer_score : ℚ :=
    if prev_layers ≠ ∅ ∨ curr_layers ≠ ∅ then
      ((prev_layers ∩ curr_layers).card : ℚ) / ((prev_layers ∪ curr_layers).card : ℚ)
    else 1
  let conf_diff := |prev.confidence - curr.confidence|
  let conf_score : ℚ := 1 - min conf_diff 1
  rc_score * 0.5 + layer_score * 0.3 + conf_score * 0.2

/-- `calculate_convergence` of `investigation_utils.py`: mean per-alert
convergence over the alerts present in both rounds (0 when either round is
empty or no alert overlaps). -/
def calculate_convergence (previous_findings current_findings : List AlertFindings) : ℚ :=
  if previous_findings = [] ∨ current_findings = [] then 0
  else
    let prev_map := pyDictOfList AlertFindings.alert_id id previous_findings
    let curr_map := pyDictOfList AlertFindings.alert_id id current_findings
    let convergence_scores := curr_map.filterMap fun p =>
      match pyDictGet prev_map p.1 with
      | none => none
      | some prev => some (alertConvergence prev p.2)
    if convergence_scores ≠ [] then
      convergence_scores.sum / (convergence_scores.length : ℚ)
    else 0

/-- The exit decision of `check_exit_conditions`, with Python's formatted
reason strings abstracted to constructors carrying the interpolated
values. -/
inductive ExitReason
  | maxRoundsReached (max_rounds : Nat)
  | confidenceReached (threshold avg : ℚ)
  | convergenceReached (threshold conv : ℚ)
  | noNewFindings
  | continueInvestigation
  deriving DecidableEq, Repr

/-- Mean confidence as `check_exit_conditions` computes it: over the
findings with strictly positive confidence, 0 when there are none. -/
def avgPositiveConfidence (findings : List AlertFindings) : ℚ :=
  let confidences := (findings.filter (fun f => 0 < f.confidence)).map AlertFindings.confidence
  if confidences ≠ [] then confidences.sum / (confidences.length : ℚ) else 0

/-- `check_exit_conditions` of `investigation_utils.py`: the four exit
conditions in source order — max rounds, mean confidence over the
positive-confidence findings, convergence (guarded by a non-empty previous
round and `round_number > 1`), unchanged root-cause assessments (same
guard). -/
def check_exit_conditions (findings previous_findings : List AlertFindings)
    (round_number : Nat) (config : MultiRoundConfig) : Bool × ExitReason :=
  if config.max_rounds ≤ round_number then
    (true, .maxRoundsReached config.max_rounds)
  else
    let avg_confidence := avgPositiveConfidence findings
    if config.confidence_threshold ≤ avg_confidence then
      (true, .confidenceReached config.confidence_threshold avg_confidence)
    else if previous_findings ≠ [] ∧ 1 < round_number ∧
        config.convergence_threshold ≤ calculate_convergence previous_findings findings then
      (true, .convergenceReached config.convergence_threshold
        (calculate_convergence previous_findings findings))
    else if previous_findings ≠ [] ∧ 1 < round_number ∧
        pyDictEq (pyDictOfList AlertFindings.alert_id AlertFindings.root_cause_assessment previous_findings)
          (pyDictOfList AlertFindings.alert_id AlertFindings.root_cause_assessment findings) then
      (true, .noNewFindings)
    else
      (false, .continueInvestigation)

/-- Mean confidence as the spec's words have it: over all current findings
(0 for an empty round). -/
def avgAllConfidence (findings : List AlertFindings) : ℚ :=
  if findings ≠ [] then
    (findings.map AlertFindings.confidence).sum / (findings.length : ℚ)
  else 0

/-- The spec's reference exit policy, written from the spec's words
(§4.5 *Exit policy*): evaluated in order with first match winning —
round ≥ max_rounds; mean confidence of the current findings ≥ threshold;
round > 1 and convergence ≥ threshold; round > 1 and root-cause
assessments byte-identical to the previous round for every alert. -/
def specExitPolicy (findings previous_findings : List AlertFindings)
    (round_number : Nat) (config : MultiRoundConfig) : Bool × ExitReason :=
  if config.max_rounds ≤ round_number then
    (true, .maxRoundsReached config.max_rounds)
  else if config.confidence_threshold ≤ avgAllConfidence findings then
    (true, .confidenceReached config.confidence_threshold (avgAllConfidence findings))
  else if 1 < round_number ∧
      config.convergence_threshold ≤ calculate_convergence previous_findings findings then
    (true, .convergenceReached config.convergence_threshold
      (calculate_convergence previous_findings findings))
  else if 1 < round_number ∧
      pyDictEq (pyDictOfList AlertFindings.alert_id AlertFindings.root_cause_assessment previous_findings)
        (pyDictOfList AlertFindings.alert_id AlertFindings.root_cause_assessment findings) then
    (true, .noNewFindings)
  else
    (false, .continueInvestigation)

/-- The spec's reference exit policy with the mean-confidence step amended
to the code's mean over the positive-confidence findings; otherwise word
for word the spec's ordered policy. -/
def specExitPolicyPosMean (findings previous_findings : List AlertFindings)
    (round_number : Nat) (config : MultiRoundConfig) : Bool × ExitReason :=
  if config.max_rounds ≤ round_number then
    (true, .maxRoundsReached config.max_rounds)
  else if config.confidence_threshold ≤ avgPositiveConfidence findings then
    (true, .confidenceReached config.confidence_threshold (avgPositiveConfidence findings))
  else if 1 < round_number ∧
      config.convergence_threshold ≤ calculate_convergence previous_findings findings then
    (true, .convergenceReached config.convergence_threshold
      (calculate_convergence previous_findings findings))
  else if 1 < round_number ∧
      pyDictEq (pyDictOfList AlertFindings.alert_id AlertFindings.root_cause_assessment previous_findings)
        (pyDictOfList AlertFindings.alert_id AlertFindings.root_cause_assessment findings) then
    (true, .noNewFindings)
  else
    (false, .continueInvestigation)

/-! ### Router — `workflows/agents/router_agent.py`

`KEYWORD_MAPPINGS` maps specialist names to trigger keyword sets (Python
sets are carried here as lists in literal order; only membership matters
to the verified properties). -/

/-- `KEYWORD_MAPPINGS` of `router_agent.py`. -/
def KEYWORD_MAPPINGS : List (String × List String) :=
  [("KubernetesSpecialist",
    ["pod", "deployment", "replicaset", "daemonset", "statefulset",
     "service", "ingress", "configmap", "namespace", "kubelet",
     "container", "node", "event", "schedule", "pvc", "persistentvolumeclaim"]),
   ("CephSpecialist",
    ["ceph", "rbd", "pvc", "persistentvolume", "persistentvolumeclaim",
     "storageclass", "csi", "rook", "objectstore", "block", "filesystem",
     "osd", "mon", "mgr", "rgw", "mds", "crush", "placement group", "pg"]),
   ("GrafanaSpecialist",
    ["grafana", "dashboard", "datasource", "panel", "loki",
     "prometheus", "alertmanager", "query", "metric", "log", "trace",
     "tempo", "mimir", "alerting"])]

/-- The body of the `for specialist_name, keywords in KEYWORD_MAPPINGS.items()`
loop of `suggest_specialists_tool`: skip an unavailable specialist; collect
its keywords occurring in the lower-cased context; on a match add the
specialist with a "Matched keywords: ..." reason, extending the reason of
an already-present entry (the Kubernetes baseline) instead of re-adding
it. -/
def suggestStep (available_set : List String) (context_lower : String)
    (suggestions : List (String × String)) (p : String × List String) :
    List (String × String) :=
  if pyLower p.1 ∈ available_set then
    let matched_keywords := p.2.filter (fun keyword => strContains context_lower keyword)
    if matched_keywords ≠ [] then
      let reason := "Matched keywords: " ++ String.intercalate ", " matched_keywords
      if suggestions.any (fun q => q.1 = p.1) then
        suggestions.map (fun q => if q.1 = p.1 then (q.1, q.2 ++ "; " ++ reason) else q)
      else
        suggestions ++ [(p.1, reason)]
    else suggestions
  else suggestions

/-- The `suggestions` dict built by `suggest_specialists_tool` inside
`new_router_agent`: the Kubernetes baseline is added first when available,
then the `KEYWORD_MAPPINGS` loop (`suggestStep`) runs over each specialist
in turn. -/
def suggest_specialists (available_specialists : List String) (context : String) :
    List (String × String) :=
  let available_set := available_specialists.map pyLower
  let context_lower := pyLower context
  let base : List (String × String) :=
    if "kubernetesspecialist" ∈ available_set then
      [("KubernetesSpecialist", "Baseline for infrastructure alerts")]
    else []
  KEYWORD_MAPPINGS.foldl (suggestStep available_set context_lower) base

/-! ### Conversation State Machine — `workflows/human_in_the_loop.py` -/

/-- `WorkflowStatus` of `models/hitl.py`. -/
inductive WorkflowStatus
  | pending
  | running
  | completed
  | ended
  deriving DecidableEq, Repr

/-- A `ChatMessage` of `models/hitl.py`; the timestamp comes from the
durable substrate's clock and is abstracted away. -/
structure ChatMessage where
  role : String
  content : String
  deriving DecidableEq, Repr

/-- The signal-visible flags of `HumanInTheLoopWorkflow` (the `self._*`
fields touched by the signal handlers and read by the three
`wait_condition` lambdas). -/
structure HITLFlags where
  pending_user_response : Option String := none
  has_pending_input : Bool := false
  should_end : Bool := false
  pending_confirmation : Bool := false
  confirmation_response : Option Bool := none
  pending_agent_selection : Bool := false
  selected_agent : Option String := none
  deriving DecidableEq, Repr

/-- The four signals of the session-facing surface. -/
inductive HITLSignal
  | send_message (message : String)
  | end_workflow
  | provide_confirmation (confirmed : Bool)
  | provide_agent_selection (selected_agent : String)
  deriving DecidableEq, Repr

/-- The signal handlers of `HumanInTheLoopWorkflow`: `send_message` stores
the response and raises `_has_pending_input`; `end_workflow` raises
`_should_end` and `_has_pending_input`; `provide_confirmation` stores the
answer and clears `_pending_confirmation`; `provide_agent_selection` stores
the selection (empty string meaning `None`) and clears
`_pending_agent_selection`. -/
def applySignal (s : HITLFlags) : HITLSignal → HITLFlags
  | .send_message m =>
      { s with pending_user_response := some m, has_pending_input := true }
  | .end_workflow =>
      { s with should_end := true, has_pending_input := true }
  | .provide_confirmation c =>
      { s with confirmation_response := some c, pending_confirmation := false }
  | .provide_agent_selection sel =>
      { s with selected_agent := if sel = "" then none else some sel,
               pending_agent_selection := false }

/-- The `wait_condition` lambda of the `ask_user` tool (line 424):
`self._has_pending_input or self._should_end`. -/
def askUserWaitCond (s : HITLFlags) : Bool :=
  s.has_pending_input || s.should_end

/-- The `wait_condition` lambda of the `select_specialist` tool (line 550):
`not self._pending_agent_selection`. -/
def selectSpecialistWaitCond (s : HITLFlags) : Bool :=
  !s.pending_agent_selection

/-- The `wait_condition` lambda of the main `run` loop (line 228):
`self._has_pending_input`. -/
def runLoopWaitCond (s : HITLFlags) : Bool :=
  s.has_pending_input

/-- The flag writes performed by `ask_user` just before its wait:
`_has_pending_input = False`. -/
def askUserEntry (s : HITLFlags) : HITLFlags :=
  { s with has_pending_input := false }

/-- The flag writes performed by `select_specialist` just before its wait:
`_pending_agent_selection = True`, `_selected_agent = None`. -/
def selectSpecialistEntry (s : HITLFlags) : HITLFlags :=
  { s with pending_agent_selection := true, selected_agent := none }

/-- `_is_final_report` of `HumanInTheLoopWorkflow`: true when any of the
six fixed indicator substrings occurs in the lower-cased response. -/
def finalReportIndicators : List String :=
  ["root cause analysis",
   "root cause:",
   "recommended actions:",
   "remediation steps:",
   "investigation complete",
   "summary of findings"]

/-- `HumanInTheLoopWorkflow._is_final_report`. -/
def is_final_report (response : String) : Bool :=
  finalReportIndicators.any (fun indicator => strContains (pyLower response) indicator)

/-- One iteration's worth of input to the conversation loop of `run`: the
next event observed at the top-of-loop wait.  `message ok` is a user
message whose agent turn returns a response; `message error` is a user
message whose agent turn raises; `stop` is an `end_workflow` signal
arriving while the loop waits. -/
inductive LoopEvent
  | message (turn : Except String String)
  | stop
  deriving Repr

/-- The assistant-role error message appended by the `except` branch of
`run`. -/
def errorChatMessage (e : String) : ChatMessage :=
  { role := "assistant",
    content := "I encountered an error: " ++ e ++ ". Please try again or rephrase your request." }

/-- The conversation loop of `HumanInTheLoopWorkflow.run` (lines 222-282),
driven by a finite event script: each iteration re-checks the turn budget,
waits for input (a `stop` arriving there sets `_should_end` and the
post-wait check breaks out), runs one agent turn, appends the assistant
message, completes on a final report, appends an error message and
continues when the turn raised, and on loop exit returns `ENDED` after a
stop and `COMPLETED` when the budget is exhausted.  `none` means the
script ended with the loop still waiting for input. -/
def runLoop (max_turns : Nat) : Nat → List ChatMessage → List LoopEvent →
    Option (WorkflowStatus × String × List ChatMessage)
  | turn_count, messages, events =>
    if max_turns ≤ turn_count then
      some (.completed, "Investigation completed (max turns reached).", messages)
    else
      match events with
      | [] => none
      | .stop :: _ =>
          some (.ended, "Investigation ended by user.", messages)
      | .message (.error e) :: rest =>
          runLoop max_turns (turn_count + 1) (messages ++ [errorChatMessage e]) rest
      | .message (.ok response) :: rest =>
          let messages' := messages ++ [{ role := "assistant", content := response }]
          if is_final_report response then
            some (.completed, response, messages')
          else
            runLoop max_turns (turn_count + 1) messages' rest

/-- The descending-confidence relation used by
`get_high_confidence_root_causes` is total. -/
instance : IsTotal SharedFinding (fun x y : SharedFinding => y.confidence ≤ x.confidence) :=
  ⟨fun a b => le_total b.confidence a.confidence⟩

/-- The descending-confidence relation used by
`get_high_confidence_root_causes` is transitive. -/
instance : IsTrans SharedFinding (fun x y : SharedFinding => y.confidence ≤ x.confidence) :=
  ⟨fun _ _ _ hab hbc => le_trans hbc hab⟩

/-! ## Theorems -/

/-- C3: `add_finding` with confidence `c < 0` or `c > 1` fails (pydantic
rejects the value during `SharedFinding` construction, before any append)
and leaves the findings sequence of the store unchanged. -/
theorem add_finding_out_of_range_rejected (ctx : SharedContext)
    (key value : String) (c : ℚ) (agent : String) (h : c < 0 ∨ 1 < c) :
    ctx.add_finding key value c agent = (ctx, none) ∧
      ((ctx.add_finding key value c agent).1).findings = ctx.findings := by
  have hnot : ¬ (0 ≤ c ∧ c ≤ 1) := by
    rcases h with h | h
    · exact fun hc => absurd hc.1 (not_le.mpr h)
    · exact fun hc => absurd hc.2 (not_le.mpr h)
  unfold SharedContext.add_finding
  rw [if_neg hnot]
  exact ⟨rfl, rfl⟩

/-- Witness for C3: recording a confidence of `3/2` on an empty blackboard
is rejected and the store stays empty. -/
theorem add_finding_out_of_range_rejected_witness :
    ((3/2 : ℚ) < 0 ∨ 1 < (3/2 : ℚ)) ∧
      (SharedContext.mk [] []).add_finding "node:n1" "disk failure" (3/2) "StorageSpecialist" =
        (SharedContext.mk [] [], none) := by
  refine ⟨Or.inr (by norm_num), ?_⟩
  exact (add_finding_out_of_range_rejected (SharedContext.mk [] []) "node:n1"
    "disk failure" (3/2) "StorageSpecialist" (Or.inr (by norm_num))).1

/-- C9 counterexample: `add_group` on an empty blackboard with the
out-of-range finding index `5` is not rejected — the group is appended to
the store and returned to the caller. -/
theorem add_group_out_of_range_accepted :
    (SharedContext.mk [] []).add_group "g" [5] "analysis" "CorrelationAgent" =
      (SharedContext.mk []
        [InvestigationGroup.mk "g" [5] "analysis" "CorrelationAgent" none],
       InvestigationGroup.mk "g" [5] "analysis" "CorrelationAgent" none) := rfl

/-- C9 amended: `add_group` performs no validation of `finding_indices` —
for every store and every index list, in range or not, the group is
appended to the store (findings untouched) and returned to the caller. -/
theorem add_group_appends_unconditionally (ctx : SharedContext)
    (name : String) (idxs : List Nat) (analysis agent : String) :
    (ctx.add_group name idxs analysis agent).1.groups =
        ctx.groups ++ [InvestigationGroup.mk name idxs analysis agent none] ∧
      (ctx.add_group name idxs analysis agent).1.findings = ctx.findings ∧
      (ctx.add_group name idxs analysis agent).2 =
        InvestigationGroup.mk name idxs analysis agent none :=
  ⟨rfl, rfl, rfl⟩

/-- A single blackboard call only ever appends to the findings sequence. -/
theorem applyOp_findings_extends (ctx : SharedContext) (op : BlackboardOp) :
    ∃ t, (applyOp ctx op).findings = ctx.findings ++ t := by
  cases op with
  | record k v c a =>
    simp only [applyOp, SharedContext.add_finding]
    by_cases h : 0 ≤ c ∧ c ≤ 1
    · rw [if_pos h]
      exact ⟨_, rfl⟩
    · rw [if_neg h]
      exact ⟨[], (List.append_nil _).symm⟩
  | group n idxs an a =>
    exact ⟨[], (List.append_nil _).symm⟩

/-- A sequence of blackboard calls only ever appends to the findings
sequence. -/
theorem applyOps_findings_extends (ops : List BlackboardOp) (ctx : SharedContext) :
    ∃ t, (applyOps ctx ops).findings = ctx.findings ++ t := by
  induction ops generalizing ctx with
  | nil => exact ⟨[], (List.append_nil _).symm⟩
  | cons op ops ih =>
    obtain ⟨t₁, h₁⟩ := applyOp_findings_extends ctx op
    obtain ⟨t₂, h₂⟩ := ih (applyOp ctx op)
    exact ⟨t₁ ++ t₂, by simp [applyOps] at h₂ ⊢; rw [h₂, h₁, List.append_assoc]⟩

/-- A validated `record` call grows the findings sequence by exactly one. -/
theorem applyOp_recordOk_length (ctx : SharedContext) (op : BlackboardOp)
    (h : op.recordOk) :
    (applyOp ctx op).findings.length = ctx.findings.length + 1 := by
  cases op with
  | record k v c a =>
    have h' : 0 ≤ c ∧ c ≤ 1 := h
    simp only [applyOp, SharedContext.add_finding]
    rw [if_pos h']
    simp
  | group n idxs an a => exact absurd h id

/-- The numbered summary lines of an extended findings sequence extend the
original ones. -/
theorem summaryLinesFrom_append (l t : List SharedFinding) (i : Nat) :
    SharedContext.summaryLinesFrom i (l ++ t) =
      SharedContext.summaryLinesFrom i l ++ SharedContext.summaryLinesFrom (i + l.length) t := by
  induction l generalizing i with
  | nil => simp [SharedContext.summaryLinesFrom]
  | cons f fs ih =>
    have harith : i + 1 + fs.length = i + (fs.length + 1) := by omega
    calc SharedContext.summaryLinesFrom i ((f :: fs) ++ t)
        = SharedContext.summaryLine i f ::
            SharedContext.summaryLinesFrom (i + 1) (fs ++ t) := rfl
      _ = SharedContext.summaryLine i f ::
            (SharedContext.summaryLinesFrom (i + 1) fs ++
              SharedContext.summaryLinesFrom (i + 1 + fs.length) t) := by rw [ih]
      _ = SharedContext.summaryLine i f ::
            (SharedContext.summaryLinesFrom (i + 1) fs ++
              SharedContext.summaryLinesFrom (i + (fs.length + 1)) t) := by rw [harith]
      _ = SharedContext.summaryLinesFrom i (f :: fs) ++
            SharedContext.summaryLinesFrom (i + (f :: fs).length) t := rfl

/-- C4: the blackboard is append-only — after any sequence of `record` /
`group` calls the old findings sequence is an initial segment of the new
one, every previously recorded finding is unchanged at its original
position, the old `format_summary` lines are an initial segment of the new
ones (when findings had been recorded), and a successful `record` call in
the sequence makes the extension strict. -/
theorem blackboard_append_only (ctx : SharedContext) (ops : List BlackboardOp) :
    (∃ t, (applyOps ctx ops).findings = ctx.findings ++ t) ∧
      (∀ i, i < ctx.findings.length →
        (applyOps ctx ops).findings[i]? = ctx.findings[i]?) ∧
      (ctx.findings ≠ [] → ∃ extra,
        SharedContext.summaryLines (applyOps ctx ops) =
          SharedContext.summaryLines ctx ++ extra) ∧
      ((∃ op ∈ ops, op.recordOk) →
        ctx.findings.length < (applyOps ctx ops).findings.length) := by
  obtain ⟨t, ht⟩ := applyOps_findings_extends ops ctx
  refine ⟨⟨t, ht⟩, ?_, ?_, ?_⟩
  · intro i hi
    rw [ht, List.getElem?_append, if_pos hi]
  · intro hne
    have hne' : (applyOps ctx ops).findings ≠ [] := by
      rw [ht]
      intro hcontra
      exact hne (List.append_eq_nil.mp hcontra).1
    refine ⟨SharedContext.summaryLinesFrom (1 + ctx.findings.length) t, ?_⟩
    unfold SharedContext.summaryLines
    rw [if_neg hne, if_neg hne', ht, summaryLinesFrom_append]
    simp
  · intro ⟨op, hmem, hok⟩
    clear ht
    induction ops generalizing ctx with
    | nil => exact absurd hmem (List.not_mem_nil op)
    | cons op' ops ih =>
      obtain ⟨t₁, h₁⟩ := applyOp_findings_extends ctx op'
      rcases List.mem_cons.mp hmem with rfl | hmem'
      · have hlen := applyOp_recordOk_length ctx op hok
        obtain ⟨t₂, h₂⟩ := applyOps_findings_extends ops (applyOp ctx op)
        have : (applyOps ctx (op :: ops)).findings = (applyOp ctx op).findings ++ t₂ := h₂
        rw [this, List.length_append, hlen]
        omega
      · have hlt := ih (applyOp ctx op') hmem'
        have hle : ctx.findings.length ≤ (applyOp ctx op').findings.length := by
          rw [h₁, List.length_append]
          omega
        have : applyOps ctx (op' :: ops) = applyOps (applyOp ctx op') ops := rfl
        rw [this]
        omega

/-- Witness for C4: on a blackboard holding one finding, a script of one
valid `record` and one `group` call keeps the old summary lines as an
initial segment and strictly grows the findings sequence. -/
theorem blackboard_append_only_witness :
    (SharedContext.mk [SharedFinding.mk "node:n1" "obs" (1/2) "A" none []] []).findings ≠ [] ∧
      (∃ extra,
        SharedContext.summaryLines
          (applyOps (SharedContext.mk [SharedFinding.mk "node:n1" "obs" (1/2) "A" none []] [])
            [BlackboardOp.record "osd:osd.5" "down" (9/10) "B",
             BlackboardOp.group "g" [0, 1] "linked" "B"]) =
        SharedContext.summaryLines
          (SharedContext.mk [SharedFinding.mk "node:n1" "obs" (1/2) "A" none []] []) ++ extra) ∧
      (SharedContext.mk [SharedFinding.mk "node:n1" "obs" (1/2) "A" none []] []).findings.length <
        (applyOps (SharedContext.mk [SharedFinding.mk "node:n1" "obs" (1/2) "A" none []] [])
          [BlackboardOp.record "osd:osd.5" "down" (9/10) "B",
           BlackboardOp.group "g" [0, 1] "linked" "B"]).findings.length := by
  have h := blackboard_append_only
    (SharedContext.mk [SharedFinding.mk "node:n1" "obs" (1/2) "A" none []] [])
    [BlackboardOp.record "osd:osd.5" "down" (9/10) "B",
     BlackboardOp.group "g" [0, 1] "linked" "B"]
  refine ⟨by simp, h.2.2.1 (by simp), h.2.2.2 ?_⟩
  exact ⟨BlackboardOp.record "osd:osd.5" "down" (9/10) "B", by simp,
    by constructor <;> norm_num⟩

/-- Inserting a finding with `orderedInsert` under the descending-confidence
relation never reorders findings of any fixed confidence: the inserted
element lands before exactly the strictly-lower-confidence part. -/
theorem filter_conf_orderedInsert (c : ℚ) (f : SharedFinding) (l : List SharedFinding) :
    (List.orderedInsert (fun x y => y.confidence ≤ x.confidence) f l).filter
        (fun g => g.confidence = c) =
      ((f :: l).filter (fun g => g.confidence = c)) := by
  induction l with
  | nil => rfl
  | cons b l ih =>
    simp only [List.orderedInsert]
    by_cases h : b.confidence ≤ f.confidence
    · rw [if_pos h]
    · rw [if_neg h]
      have hfb : f.confidence < b.confidence := not_le.mp h
      by_cases hb : b.confidence = c
      · have hf : ¬ f.confidence = c := fun hf => (ne_of_lt hfb) (hf.trans hb.symm)
        simp [List.filter_cons, ih, hb, hf]
      · simp [List.filter_cons, ih, hb]

/-- Stability of the descending-confidence insertion sort: among findings
of equal confidence, recording order is preserved. -/
theorem filter_conf_insertionSort (c : ℚ) (l : List SharedFinding) :
    (l.insertionSort (fun x y => y.confidence ≤ x.confidence)).filter
        (fun g => g.confidence = c) =
      l.filter (fun g => g.confidence = c) := by
  induction l with
  | nil => rfl
  | cons f l ih =>
    simp only [List.insertionSort]
    rw [filter_conf_orderedInsert]
    simp [List.filter_cons, ih]

/-- C8: `get_high_confidence_root_causes t` returns exactly the findings
with confidence at/above `t`, sorted by confidence descending, ties in
recording order; and on the spec's scenario (confidences 0.9, 0.6, 0.95
recorded in that order for `node:n1`) the 0.8-threshold query returns the
0.95 finding then the 0.9 finding. -/
theorem high_confidence_sorted_stable (ctx : SharedContext) (t : ℚ) :
    List.Sorted (fun x y : SharedFinding => y.confidence ≤ x.confidence)
        (ctx.get_high_confidence_root_causes t) ∧
      List.Perm (ctx.get_high_confidence_root_causes t)
        (ctx.findings.filter (fun f => t ≤ f.confidence)) ∧
      (∀ c : ℚ, (ctx.get_high_confidence_root_causes t).filter (fun f => f.confidence = c) =
        (ctx.findings.filter (fun f => t ≤ f.confidence)).filter (fun f => f.confidence = c)) ∧
      ((((SharedContext.mk [] []).add_finding "node:n1" "obs1" (9/10) "InvestigationAgent").1.add_finding
            "node:n1" "obs2" (6/10) "InvestigationAgent").1.add_finding
            "node:n1" "obs3" (95/100) "InvestigationAgent").1.get_high_confidence_root_causes (8/10) =
        [SharedFinding.mk "node:n1" "obs3" (95/100) "InvestigationAgent" none [],
         SharedFinding.mk "node:n1" "obs1" (9/10) "InvestigationAgent" none []] := by
  refine ⟨List.sorted_insertionSort _ _, List.perm_insertionSort _ _,
    fun c => filter_conf_insertionSort c _, ?_⟩
  norm_num [SharedContext.add_finding, SharedContext.get_high_confidence_root_causes,
    List.insertionSort, List.orderedInsert, List.filter]

/-- Keys of a dict after an assignment: unchanged when the key was present,
extended by the key otherwise. -/
theorem pyDictInsert_keys {α : Type} (m : List (String × α)) (k : String) (v : α) :
    (pyDictInsert m k v).map Prod.fst =
      if m.any (fun p => p.1 = k) then m.map Prod.fst else m.map Prod.fst ++ [k] := by
  unfold pyDictInsert
  by_cases h : m.any (fun p => p.1 = k)
  · rw [if_pos h, if_pos h, List.map_map]
    refine List.map_congr_left (fun p _ => ?_)
    by_cases hp : p.1 = k
    · simp [hp]
    · simp [hp]
  · rw [if_neg h, if_neg h]
    simp

/-- Dict assignment preserves key distinctness. -/
theorem pyDictInsert_nodup {α : Type} (m : List (String × α)) (k : String) (v : α)
    (h : (m.map Prod.fst).Nodup) : ((pyDictInsert m k v).map Prod.fst).Nodup := by
  rw [pyDictInsert_keys]
  by_cases hk : m.any (fun p => p.1 = k)
  · rwa [if_pos hk]
  · rw [if_neg hk]
    have hknot : k ∉ m.map Prod.fst := by
      intro hmem
      obtain ⟨p, hp, hpk⟩ := List.mem_map.mp hmem
      exact hk (List.any_eq_true.mpr ⟨p, hp, by simp [hpk]⟩)
    simp [List.nodup_append, h, hknot]

/-- Dict assignment never shrinks the dict. -/
theorem pyDictInsert_length {α : Type} (m : List (String × α)) (k : String) (v : α) :
    m.length ≤ (pyDictInsert m k v).length := by
  unfold pyDictInsert
  by_cases h : m.any (fun p => p.1 = k)
  · simp [h]
  · simp [h]

/-- A dict comprehension built by folding assignments keeps keys distinct. -/
theorem pyDictOfList_fold_nodup {α β : Type} (key : β → String) (val : β → α)
    (l : List β) (m : List (String × α)) (h : (m.map Prod.fst).Nodup) :
    ((l.foldl (fun m b => pyDictInsert m (key b) (val b)) m).map Prod.fst).Nodup := by
  induction l generalizing m with
  | nil => exact h
  | cons b l ih => exact ih _ (pyDictInsert_nodup _ _ _ h)

/-- The dict-comprehension model has distinct keys. -/
theorem pyDictOfList_nodup {α β : Type} (key : β → String) (val : β → α) (l : List β) :
    ((pyDictOfList key val l).map Prod.fst).Nodup :=
  pyDictOfList_fold_nodup key val l [] List.nodup_nil

/-- The fold building a dict never shrinks it. -/
theorem pyDictOfList_fold_length {α β : Type} (key : β → String) (val : β → α)
    (l : List β) (m : List (String × α)) :
    m.length ≤ (l.foldl (fun m b => pyDictInsert m (key b) (val b)) m).length := by
  induction l generalizing m with
  | nil => exact le_refl _
  | cons b l ih => exact le_trans (pyDictInsert_length m (key b) (val b)) (ih _)

/-- The dict comprehension over a non-empty list is non-empty. -/
theorem pyDictOfList_ne_nil {α β : Type} (key : β → String) (val : β → α)
    (b : β) (l : List β) : pyDictOfList key val (b :: l) ≠ [] := by
  have h1 : (pyDictInsert ([] : List (String × α)) (key b) (val b)).length = 1 := by
    simp [pyDictInsert]
  have h2 := pyDictOfList_fold_length key val l (pyDictInsert [] (key b) (val b))
  intro hcontra
  have : (pyDictOfList key val (b :: l)).length = 0 := by rw [hcontra]; rfl
  unfold pyDictOfList at this
  simp only [List.foldl_cons] at this
  omega

/-- In a dict with distinct keys, looking up any entry's key yields that
entry's value. -/
theorem pyDictGet_of_mem {α : Type} (m : List (String × α))
    (h : (m.map Prod.fst).Nodup) (p : String × α) (hp : p ∈ m) :
    pyDictGet m p.1 = some p.2 := by
  induction m with
  | nil => exact absurd hp (List.not_mem_nil p)
  | cons q m ih =>
    rw [List.map_cons, List.nodup_cons] at h
    rcases List.mem_cons.mp hp with rfl | hp'
    · simp [pyDictGet]
    · have hq : q.1 ≠ p.1 := by
        intro hcontra
        exact h.1 (hcontra ▸ List.mem_map.mpr ⟨p, hp', rfl⟩)
      simp only [pyDictGet, if_neg hq]
      exact ih h.2 hp'

/-- Pointwise-`some` `filterMap` is a `map`. -/
theorem filterMap_eq_map_of_forall {α β : Type} (f : α → Option β) (g : α → β)
    (l : List α) (h : ∀ a ∈ l, f a = some (g a)) : l.filterMap f = l.map g := by
  induction l with
  | nil => rfl
  | cons a l ih =>
    rw [List.filterMap_cons, h a (List.mem_cons_self a l), List.map_cons,
      ih (fun b hb => h b (List.mem_cons_of_mem a hb))]

/-- Comparing a round of findings against itself gives every alert the full
per-alert convergence score. -/
theorem alertConvergence_self (a : AlertFindings) : alertConvergence a a = 1 := by
  unfold alertConvergence
  dsimp only
  rw [if_pos rfl]
  by_cases hS : a.affected_layers.toFinset = ∅
  · rw [if_neg (by simp [hS])]
    rw [sub_self, abs_zero, min_eq_left (by norm_num : (0:ℚ) ≤ 1)]
    norm_num
  · rw [if_pos (Or.inl hS)]
    rw [Finset.inter_self, Finset.union_self]
    have hcard : (a.affected_layers.toFinset.card : ℚ) ≠ 0 := by
      simp only [ne_eq, Nat.cast_eq_zero, Finset.card_eq_zero]
      exact hS
    rw [div_self hcard, sub_self, abs_zero, min_eq_left (by norm_num : (0:ℚ) ≤ 1)]
    norm_num

/-- C7: the convergence score of any non-empty findings list compared
against itself is exactly 1. -/
theorem convergence_self_eq_one (A : List AlertFindings) (h : A ≠ []) :
    calculate_convergence A A = 1 := by
  unfold calculate_convergence
  rw [if_neg (by simp [h])]
  have hnodup := pyDictOfList_nodup AlertFindings.alert_id id A
  have hscores :
      (pyDictOfList AlertFindings.alert_id id A).filterMap
          (fun p => match pyDictGet (pyDictOfList AlertFindings.alert_id id A) p.1 with
            | none => none
            | some prev => some (alertConvergence prev p.2)) =
        (pyDictOfList AlertFindings.alert_id id A).map (fun _ => (1 : ℚ)) := by
    refine filterMap_eq_map_of_forall _ _ _ (fun p hp => ?_)
    rw [pyDictGet_of_mem _ hnodup p hp]
    simp [alertConvergence_self]
  dsimp only
  rw [hscores]
  obtain ⟨b, l, rfl⟩ : ∃ b l, A = b :: l := by
    cases A with
    | nil => exact absurd rfl h
    | cons b l => exact ⟨b, l, rfl⟩
  have hne := pyDictOfList_ne_nil AlertFindings.alert_id id b l
  have hlen : (pyDictOfList AlertFindings.alert_id id (b :: l)).length ≠ 0 := by
    intro hzero
    exact hne (List.length_eq_zero.mp hzero)
  rw [if_pos (by simp [hne])]
  rw [List.map_const', List.sum_replicate, List.length_replicate]
  rw [nsmul_eq_mul, mul_one]
  exact div_self (by exact_mod_cast hlen)

/-- Witness for C7: a concrete one-alert round compared against itself
converges with score exactly 1. -/
theorem convergence_self_eq_one_witness :
    ([AlertFindings.mk "a1" "osd down" ["storage"] (9/10)] : List AlertFindings) ≠ [] ∧
      calculate_convergence [AlertFindings.mk "a1" "osd down" ["storage"] (9/10)]
        [AlertFindings.mk "a1" "osd down" ["storage"] (9/10)] = 1 :=
  ⟨by simp, convergence_self_eq_one _ (by simp)⟩

/-- C2 counterexample: with current findings of confidences 0.9 and 0.0,
an empty previous round, round 1, `max_rounds = 3` and both thresholds
0.8, the code stops with a confidence reason (it averages only the
positive-confidence findings, 0.9 ≥ 0.8) while the spec's reference policy
(mean over all current findings, 0.45 < 0.8) continues — the exit decision
does not equal the spec's reference policy. -/
theorem check_exit_conditions_ne_spec_policy :
    check_exit_conditions
        [AlertFindings.mk "a1" "rc a" ["compute"] (9/10),
         AlertFindings.mk "a2" "rc b" ["storage"] 0]
        [] 1 (MultiRoundConfig.mk 3 (4/5) (4/5)) =
      (true, ExitReason.confidenceReached (4/5) (9/10)) ∧
      specExitPolicy
        [AlertFindings.mk "a1" "rc a" ["compute"] (9/10),
         AlertFindings.mk "a2" "rc b" ["storage"] 0]
        [] 1 (MultiRoundConfig.mk 3 (4/5) (4/5)) =
      (false, ExitReason.continueInvestigation) ∧
      check_exit_conditions
        [AlertFindings.mk "a1" "rc a" ["compute"] (9/10),
         AlertFindings.mk "a2" "rc b" ["storage"] 0]
        [] 1 (MultiRoundConfig.mk 3 (4/5) (4/5)) ≠
      specExitPolicy
        [AlertFindings.mk "a1" "rc a" ["compute"] (9/10),
         AlertFindings.mk "a2" "rc b" ["storage"] 0]
        [] 1 (MultiRoundConfig.mk 3 (4/5) (4/5)) := by
  have h1 : check_exit_conditions
      [AlertFindings.mk "a1" "rc a" ["compute"] (9/10),
       AlertFindings.mk "a2" "rc b" ["storage"] 0]
      [] 1 (MultiRoundConfig.mk 3 (4/5) (4/5)) =
    (true, ExitReason.confidenceReached (4/5) (9/10)) := by
    norm_num [check_exit_conditions, avgPositiveConfidence, List.filter]
  have h2 : specExitPolicy
      [AlertFindings.mk "a1" "rc a" ["compute"] (9/10),
       AlertFindings.mk "a2" "rc b" ["storage"] 0]
      [] 1 (MultiRoundConfig.mk 3 (4/5) (4/5)) =
    (false, ExitReason.continueInvestigation) := by
    norm_num [specExitPolicy, avgAllConfidence, List.filter]
    rw [if_neg (List.cons_ne_nil _ _)]
    norm_num
  refine ⟨h1, h2, ?_⟩
  intro hcontra
  rw [h1, h2] at hcontra
  simp at hcontra

/-- C2 (amended): under the documented calling convention that the
previous-round list is non-empty for every round after the first, the exit
decision of `check_exit_conditions` equals the spec's ordered reference
policy with its mean-confidence step taken over the positive-confidence
findings (0 when there are none); in particular at `round = max_rounds`
with zero mean confidence the reported reason is max rounds. -/
theorem check_exit_conditions_matches_amended_policy
    (findings previous_findings : List AlertFindings) (round_number : Nat)
    (config : MultiRoundConfig) (h : 1 < round_number → previous_findings ≠ []) :
    check_exit_conditions findings previous_findings round_number config =
      specExitPolicyPosMean findings previous_findings round_number config := by
  unfold check_exit_conditions specExitPolicyPosMean
  dsimp only
  split_ifs <;> first
    | rfl
    | (exfalso; tauto)

/-- Witness for C2 (amended): a concrete round-2 evaluation with a
non-empty previous round on which code and amended reference policy
agree. -/
theorem check_exit_conditions_matches_amended_policy_witness :
    (1 < 2 → ([AlertFindings.mk "a1" "old rc" ["compute"] (1/2)] : List AlertFindings) ≠ []) ∧
      check_exit_conditions
          [AlertFindings.mk "a1" "new rc" ["compute"] (3/5)]
          [AlertFindings.mk "a1" "old rc" ["compute"] (1/2)]
          2 (MultiRoundConfig.mk 5 (4/5) (99/100)) =
        specExitPolicyPosMean
          [AlertFindings.mk "a1" "new rc" ["compute"] (3/5)]
          [AlertFindings.mk "a1" "old rc" ["compute"] (1/2)]
          2 (MultiRoundConfig.mk 5 (4/5) (99/100)) :=
  ⟨fun _ => by simp,
   check_exit_conditions_matches_amended_policy _ _ _ _ (fun _ => by simp)⟩

/-- A map that preserves first components preserves key membership. -/
theorem keyMem_map_fst_preserved (acc : List (String × String))
    (f : String × String → String × String) (hf : ∀ q, (f q).1 = q.1) (name : String) :
    (∃ r, (name, r) ∈ acc.map f) ↔ ∃ r, (name, r) ∈ acc := by
  constructor
  · rintro ⟨r, hr⟩
    obtain ⟨q, hq, hfq⟩ := List.mem_map.mp hr
    refine ⟨q.2, ?_⟩
    have h1 : q.1 = name := by rw [← hf q, hfq]
    rw [← h1, Prod.mk.eta]
    exact hq
  · rintro ⟨r, hr⟩
    refine ⟨(f (name, r)).2, ?_⟩
    have hm := List.mem_map_of_mem f hr
    have hsplit : f (name, r) = (name, (f (name, r)).2) :=
      Prod.ext_iff.mpr ⟨hf (name, r), rfl⟩
    rwa [hsplit] at hm

/-- Key membership after one `KEYWORD_MAPPINGS` loop iteration: the keys
are those of the accumulator, plus the iterated specialist when it is
available and one of its keywords occurs in the context. -/
theorem keyMem_suggestStep (avail : List String) (ctxl : String)
    (acc : List (String × String)) (p : String × List String) (name : String) :
    (∃ r, (name, r) ∈ suggestStep avail ctxl acc p) ↔
      ((∃ r, (name, r) ∈ acc) ∨
        (p.1 = name ∧ pyLower p.1 ∈ avail ∧ ∃ kw ∈ p.2, strContains ctxl kw = true)) := by
  unfold suggestStep
  by_cases h1 : pyLower p.1 ∈ avail
  · rw [if_pos h1]
    dsimp only
    by_cases h2 : p.2.filter (fun keyword => strContains ctxl keyword) ≠ []
    · rw [if_pos h2]
      have hkw : ∃ kw ∈ p.2, strContains ctxl kw = true := by
        obtain ⟨kw, hkwmem⟩ := List.exists_mem_of_ne_nil _ h2
        obtain ⟨hmem, hpred⟩ := List.mem_filter.mp hkwmem
        exact ⟨kw, hmem, hpred⟩
      by_cases h3 : acc.any (fun q => q.1 = p.1)
      · rw [if_pos h3]
        rw [keyMem_map_fst_preserved acc _
          (fun q => by by_cases hq : q.1 = p.1 <;> simp [hq]) name]
        constructor
        · exact Or.inl
        · rintro (hacc | ⟨hpn, -, -⟩)
          · exact hacc
          · obtain ⟨q, hq, hq1⟩ := List.any_eq_true.mp h3
            refine ⟨q.2, ?_⟩
            have hqn : q.1 = name := (of_decide_eq_true hq1).trans hpn
            rw [← hqn, Prod.mk.eta]
            exact hq
      · rw [if_neg h3]
        constructor
        · rintro ⟨r, hr⟩
          rcases List.mem_append.mp hr with h | h
          · exact Or.inl ⟨r, h⟩
          · have heq := List.mem_singleton.mp h
            have hpn : p.1 = name := ((Prod.mk.injEq _ _ _ _).mp heq).1.symm
            exact Or.inr ⟨hpn, h1, hkw⟩
        · rintro (⟨r, hr⟩ | ⟨hpn, -, -⟩)
          · exact ⟨r, List.mem_append_left _ hr⟩
          · refine ⟨"Matched keywords: " ++ String.intercalate ", "
              (p.2.filter (fun keyword => strContains ctxl keyword)), ?_⟩
            rw [← hpn]
            exact List.mem_append_right _ (List.mem_singleton_self _)
    · rw [if_neg h2]
      push_neg at h2
      have hnkw : ¬ ∃ kw ∈ p.2, strContains ctxl kw = true := by
        rintro ⟨kw, hmem, hpred⟩
        have hin : kw ∈ p.2.filter (fun keyword => strContains ctxl keyword) :=
          List.mem_filter.mpr ⟨hmem, hpred⟩
        rw [h2] at hin
        exact absurd hin (List.not_mem_nil kw)
      constructor
      · exact Or.inl
      · rintro (hacc | ⟨-, -, hkw⟩)
        · exact hacc
        · exact absurd hkw hnkw
  · rw [if_neg h1]
    constructor
    · exact Or.inl
    · rintro (hacc | ⟨-, hav, -⟩)
      · exact hacc
      · exact absurd hav h1

/-- Key membership after the whole `KEYWORD_MAPPINGS` loop. -/
theorem keyMem_suggestFold (avail : List String) (ctxl : String)
    (maps : List (String × List String)) (acc : List (String × String)) (name : String) :
    (∃ r, (name, r) ∈ maps.foldl (suggestStep avail ctxl) acc) ↔
      ((∃ r, (name, r) ∈ acc) ∨
        (∃ kws, (name, kws) ∈ maps ∧ pyLower name ∈ avail ∧
          ∃ kw ∈ kws, strContains ctxl kw = true)) := by
  induction maps generalizing acc with
  | nil => simp
  | cons p maps ih =>
    rw [List.foldl_cons, ih, keyMem_suggestStep]
    constructor
    · rintro ((hacc | ⟨hpn, hav, hkw⟩) | ⟨kws, hmem, hav, hkw⟩)
      · exact Or.inl hacc
      · refine Or.inr ⟨p.2, ?_, hpn ▸ hav, hkw⟩
        rw [← hpn, Prod.mk.eta]
        exact List.mem_cons_self p maps
      · exact Or.inr ⟨kws, List.mem_cons_of_mem p hmem, hav, hkw⟩
    · rintro (hacc | ⟨kws, hmem, hav, hkw⟩)
      · exact Or.inl (Or.inl hacc)
      · rcases List.mem_cons.mp hmem with heq | hmem'
        · refine Or.inl (Or.inr ⟨?_, ?_, ?_⟩)
          · rw [← heq]
          · rw [← heq]
            exact hav
          · rw [← heq]
            exact hkw
        · exact Or.inr ⟨kws, hmem', hav, hkw⟩

/-- C6: a specialist name appears in the router's suggestions iff it is
available (case-insensitively) and is the Kubernetes baseline or has a
keyword occurring as a substring of the lower-cased text; in particular a
text containing "rbd" always yields the Ceph (storage) specialist when it
is available.  (Determinism is inherent: the model is a pure function of
`available_specialists` and `context`.) -/
theorem router_membership (available_specialists : List String) (context : String)
    (name : String) :
    ((∃ r, (name, r) ∈ suggest_specialists available_specialists context) ↔
      (pyLower name ∈ available_specialists.map pyLower ∧
        (name = "KubernetesSpecialist" ∨
          ∃ kws, (name, kws) ∈ KEYWORD_MAPPINGS ∧
            ∃ kw ∈ kws, strContains (pyLower context) kw = true))) ∧
      (strContains (pyLower context) "rbd" = true →
        "cephspecialist" ∈ available_specialists.map pyLower →
        ∃ r, ("CephSpecialist", r) ∈ suggest_specialists available_specialists context) := by
  have hiff : ∀ nm : String,
      (∃ r, (nm, r) ∈ suggest_specialists available_specialists context) ↔
        (pyLower nm ∈ available_specialists.map pyLower ∧
          (nm = "KubernetesSpecialist" ∨
            ∃ kws, (nm, kws) ∈ KEYWORD_MAPPINGS ∧
              ∃ kw ∈ kws, strContains (pyLower context) kw = true)) := by
    intro nm
    unfold suggest_specialists
    dsimp only
    rw [keyMem_suggestFold]
    have hbase : (∃ r, (nm, r) ∈
        (if "kubernetesspecialist" ∈ available_specialists.map pyLower then
          [(("KubernetesSpecialist" : String), ("Baseline for infrastructure alerts" : String))]
        else [])) ↔
        ("kubernetesspecialist" ∈ available_specialists.map pyLower ∧
          nm = "KubernetesSpecialist") := by
      by_cases hk : "kubernetesspecialist" ∈ available_specialists.map pyLower
      · simp [hk]
      · simp [hk]
    rw [hbase]
    have hklower : pyLower "KubernetesSpecialist" = "kubernetesspecialist" := by decide
    constructor
    · rintro (⟨hk, rfl⟩ | ⟨kws, hmem, hav, hkw⟩)
      · exact ⟨hklower ▸ hk, Or.inl rfl⟩
      · exact ⟨hav, Or.inr ⟨kws, hmem, hkw⟩⟩
    · rintro ⟨hav, (rfl | ⟨kws, hmem, hkw⟩)⟩
      · exact Or.inl ⟨hklower ▸ hav, rfl⟩
      · exact Or.inr ⟨kws, hmem, hav, hkw⟩
  refine ⟨hiff name, fun hrbd hav => ?_⟩
  refine (hiff "CephSpecialist").mpr ⟨?_, Or.inr ?_⟩
  · have hcl : pyLower "CephSpecialist" = "cephspecialist" := by decide
    rw [hcl]
    exact hav
  · refine ⟨["ceph", "rbd", "pvc", "persistentvolume", "persistentvolumeclaim",
      "storageclass", "csi", "rook", "objectstore", "block", "filesystem",
      "osd", "mon", "mgr", "rgw", "mds", "crush", "placement group", "pg"], ?_, "rbd", ?_, hrbd⟩
    · simp [KEYWORD_MAPPINGS]
    · simp

/-- Witness for C6: for the context "PVC bound to rbd image" with all three
specialists available, the Ceph specialist appears among the
suggestions. -/
theorem router_membership_witness :
    strContains (pyLower "PVC bound to rbd image") "rbd" = true ∧
      "cephspecialist" ∈
        (["KubernetesSpecialist", "CephSpecialist", "GrafanaSpecialist"] : List String).map
          pyLower ∧
      ∃ r, ("CephSpecialist", r) ∈
        suggest_specialists ["KubernetesSpecialist", "CephSpecialist", "GrafanaSpecialist"]
          "PVC bound to rbd image" := by
  refine ⟨by decide, by decide, ?_⟩
  exact (router_membership ["KubernetesSpecialist", "CephSpecialist", "GrafanaSpecialist"]
    "PVC bound to rbd image" "CephSpecialist").2 (by decide) (by decide)

/-- C1 (evaluation at the failing input): with a specialist selection
outstanding (`select_specialist` has set `_pending_agent_selection` and is
waiting on `not _pending_agent_selection`), an `end_workflow` signal sets
the stop flag — which unblocks an `ask_user` wait and the main-loop wait —
but the `select_specialist` wait condition still evaluates to false, so
that wait stays suspended and the run loop cannot reach `ENDED`. -/
theorem stop_does_not_unblock_selection_wait :
    (applySignal (selectSpecialistEntry {}) HITLSignal.end_workflow).should_end = true ∧
      selectSpecialistWaitCond (applySignal (selectSpecialistEntry {}) HITLSignal.end_workflow) =
        false ∧
      askUserWaitCond (applySignal (askUserEntry {}) HITLSignal.end_workflow) = true ∧
      runLoopWaitCond (applySignal ({} : HITLFlags) HITLSignal.end_workflow) = true ∧
      selectSpecialistWaitCond
        (applySignal (applySignal (selectSpecialistEntry {}) HITLSignal.end_workflow)
          (HITLSignal.provide_agent_selection "")) = true := by
  decide

/-- C5: the conversation loop of `run` survives agent-turn failures — a
turn that raises appends an assistant-role error message and the loop
continues with the next event unchanged otherwise; and whenever the loop
returns, its terminal status is `COMPLETED` or `ENDED`, with `ENDED`
occurring only when a stop event was in the consumed script. -/
theorem run_loop_error_resilient :
    (∀ (max_turns turn_count : Nat) (messages : List ChatMessage) (e : String)
        (rest : List LoopEvent), turn_count < max_turns →
      runLoop max_turns turn_count messages (LoopEvent.message (.error e) :: rest) =
        runLoop max_turns (turn_count + 1) (messages ++ [errorChatMessage e]) rest) ∧
      (∀ (max_turns turn_count : Nat) (messages : List ChatMessage)
          (events : List LoopEvent) (st : WorkflowStatus) (result : String)
          (messages' : List ChatMessage),
        runLoop max_turns turn_count messages events = some (st, result, messages') →
          (st = WorkflowStatus.completed ∨ st = WorkflowStatus.ended) ∧
            (st = WorkflowStatus.ended → LoopEvent.stop ∈ events)) := by
  constructor
  · intro mt t msgs e rest h
    rw [runLoop.eq_def]
    dsimp only
    rw [if_neg (by omega : ¬ mt ≤ t)]
  · intro mt t msgs events
    induction events generalizing t msgs with
    | nil =>
      intro st res msgs' h
      rw [runLoop.eq_def] at h
      dsimp only at h
      by_cases hb : mt ≤ t
      · rw [if_pos hb] at h
        simp only [Option.some.injEq, Prod.mk.injEq] at h
        obtain ⟨hst, -, -⟩ := h
        exact ⟨Or.inl hst.symm, fun hc => by rw [← hst] at hc; exact absurd hc (by simp)⟩
      · rw [if_neg hb] at h
        exact absurd h (by simp)
    | cons ev rest ih =>
      intro st res msgs' h
      rw [runLoop.eq_def] at h
      dsimp only at h
      by_cases hb : mt ≤ t
      · rw [if_pos hb] at h
        simp only [Option.some.injEq, Prod.mk.injEq] at h
        obtain ⟨hst, -, -⟩ := h
        exact ⟨Or.inl hst.symm, fun hc => by rw [← hst] at hc; exact absurd hc (by simp)⟩
      · rw [if_neg hb] at h
        cases ev with
        | stop =>
          simp only [Option.some.injEq, Prod.mk.injEq] at h
          obtain ⟨hst, -, -⟩ := h
          exact ⟨Or.inr hst.symm, fun _ => List.mem_cons_self _ _⟩
        | message turn =>
          cases turn with
          | error e =>
            dsimp only at h
            obtain ⟨hterm, hstop⟩ := ih (t + 1) (msgs ++ [errorChatMessage e]) st res msgs' h
            exact ⟨hterm, fun hc => List.mem_cons_of_mem _ (hstop hc)⟩
          | ok response =>
            dsimp only at h
            by_cases hfin : is_final_report response
            · rw [if_pos hfin] at h
              simp only [Option.some.injEq, Prod.mk.injEq] at h
              obtain ⟨hst, -, -⟩ := h
              exact ⟨Or.inl hst.symm, fun hc => by rw [← hst] at hc; exact absurd hc (by simp)⟩
            · rw [if_neg hfin] at h
              obtain ⟨hterm, hstop⟩ :=
                ih (t + 1) (msgs ++ [ChatMessage.mk "assistant" response]) st res msgs' h
              exact ⟨hterm, fun hc => List.mem_cons_of_mem _ (hstop hc)⟩

/-- Witness for C5: a concrete script where the first turn raises, the
error message is appended and the loop continues, and the following stop
event ends the session with status `ENDED`. -/
theorem run_loop_error_resilient_witness :
    runLoop 5 0 [] [LoopEvent.message (.error "boom"), LoopEvent.stop] =
        runLoop 5 1 [errorChatMessage "boom"] [LoopEvent.stop] ∧
      ((WorkflowStatus.ended = WorkflowStatus.completed ∨
          WorkflowStatus.ended = WorkflowStatus.ended) ∧
        (WorkflowStatus.ended = WorkflowStatus.ended →
          LoopEvent.stop ∈ [LoopEvent.message (.error "boom"), LoopEvent.stop])) := by
  constructor
  · exact run_loop_error_resilient.1 5 0 [] "boom" [LoopEvent.stop] (by omega)
  · exact run_loop_error_resilient.2 5 0 []
      [LoopEvent.message (.error "boom"), LoopEvent.stop] WorkflowStatus.ended
      "Investigation ended by user." [errorChatMessage "boom"] (by decide)

/-- C10: within the turn budget, a successful agent turn completes the
session with the response as final result exactly when `_is_final_report`
holds of the response, and otherwise appends the assistant message and
continues; `_is_final_report` holds iff one of the six fixed indicator
substrings occurs in the lower-cased response. -/
theorem final_report_completion (max_turns turn_count : Nat)
    (messages : List ChatMessage) (response : String) (rest : List LoopEvent)
    (h : turn_count < max_turns) :
    (runLoop max_turns turn_count messages (LoopEvent.message (.ok response) :: rest) =
        if is_final_report response then
          some (WorkflowStatus.completed, response,
            messages ++ [ChatMessage.mk "assistant" response])
        else
          runLoop max_turns (turn_count + 1)
            (messages ++ [ChatMessage.mk "assistant" response]) rest) ∧
      (is_final_report response = true ↔
        ∃ indicator ∈ finalReportIndicators,
          strContains (pyLower response) indicator = true) := by
  constructor
  · rw [runLoop.eq_def]
    dsimp only
    rw [if_neg (by omega : ¬ max_turns ≤ turn_count)]
  · simp [is_final_report, List.any_eq_true]

/-- Witness for C10: a response containing "root cause:" completes the
session with that response; the indicator check evaluates to true on it. -/
theorem final_report_completion_witness :
    (runLoop 5 0 [] [LoopEvent.message (.ok "Root cause: osd.5 disk failure")] =
        if is_final_report "Root cause: osd.5 disk failure" then
          some (WorkflowStatus.completed, "Root cause: osd.5 disk failure",
            [ChatMessage.mk "assistant" "Root cause: osd.5 disk failure"])
        else runLoop 5 1 [ChatMessage.mk "assistant" "Root cause: osd.5 disk failure"] []) ∧
      is_final_report "Root cause: osd.5 disk failure" = true := by
  constructor
  · have h := (final_report_completion 5 0 [] "Root cause: osd.5 disk failure" []
      (by omega)).1
    simpa using h
  · decide
